import Mathlib

/-!
Shallow embedding of `src/threading.c`.

The program spawns `num_threads = 3` POSIX threads.  Each thread runs
`thread_func`, which prints "Thread: N running" five times (sleeping one
second after each print) and then prints "Thread: N finished".  `main`
prints "Creating threads", fills `thread_id[k] = k + 1` and spawns the
threads in a loop (returning `-1` after a `perror` diagnostic if any
`pthread_create` call fails), prints the waiting message, joins every
thread in order, prints "All threads finished" and returns `0`.

All machine integers in the source (`uint8_t i`, `uint16_t` identifiers
and counters, `int32_t` return value) stay far below their wrap-around
bounds (`i ≤ 5 < 2^8`, identifiers `≤ 3 < 2^16`), so they are modelled
by `Nat` (and the return value by `Int`); no `% 2^w` reduction is ever
reachable.

Concurrency is modelled by a small-step labelled transition system: a
`State` holds the launcher's program counter, the populated prefixes of
the `thread_id` and thread-progress arrays and the join counter, and a
`Step` either advances `main` or lets an arbitrary spawned thread emit
its next output line.  A `Run` is a finite interleaving of steps; the
label list is the sequence of emitted lines.
-/

namespace Threading

/-- Iteration bound of the worker loop: the literal `5` in `i < 5`. -/
def loop_bound : Nat := 5

/-- `uint16_t num_threads = 3;` -/
def num_threads : Nat := 3

/-- `thread_id[thread_num] = thread_num + 1;` — the identifier written
into slot `thread_num` before the corresponding `pthread_create`. -/
def thread_id_val (thread_num : Nat) : Nat := thread_num + 1

/-- One emitted line, abstracted from the exact `printf`/`perror` text.
`errDiag e` is the `perror` diagnostic carrying the nonzero error code
`e` returned by a failing `pthread_create`. -/
inductive Line where
  | creating
  | running (n : Nat)
  | finished (n : Nat)
  | waitingMsg
  | allFinished
  | errDiag (e : Nat)
  deriving DecidableEq, Repr

/-- The concrete text of each line, as in the `printf` format strings
(the `perror` diagnostic additionally appends the OS error text). -/
def render : Line → String
  | Line.creating => "Creating threads"
  | Line.running n => "Thread: " ++ toString n ++ " running"
  | Line.finished n => "Thread: " ++ toString n ++ " finished"
  | Line.waitingMsg => "main(): threads created, waiting for finish..."
  | Line.allFinished => "All threads finished"
  | Line.errDiag _ => "error creating thread"

/-- Which stream a line is written to: `perror` writes to `stderr`
(`true`), every `printf` goes to `stdout` (`false`). -/
def onStderr : Line → Bool
  | Line.errDiag _ => true
  | _ => false

def isRunningLine : Line → Bool
  | Line.running _ => true
  | _ => false

def isFinishedLine : Line → Bool
  | Line.finished _ => true
  | _ => false

def isErrLine : Line → Bool
  | Line.errDiag _ => true
  | _ => false

/-- Lines printed by `main` itself to `stdout`. -/
def isLauncherStdout : Line → Bool
  | Line.creating => true
  | Line.waitingMsg => true
  | Line.allFinished => true
  | _ => false

/-- One action of a worker: a print or a `sleep(k)`. -/
inductive Act where
  | print (l : Line)
  | sleepSec (k : Nat)
  deriving DecidableEq, Repr

/-- The loop body of `thread_func`:
`for (uint8_t i = 0; i < 5; i++) { printf("Thread: %d running\n", ...); sleep(1); }`,
as a function of the current loop counter `i`. -/
def thread_loop (thread_num : Nat) (i : Nat) : List Act :=
  if _h : i < loop_bound then
    Act.print (Line.running thread_num) :: Act.sleepSec 1 :: thread_loop thread_num (i + 1)
  else []
termination_by loop_bound - i
decreasing_by omega

/-- `thread_func`: the full action sequence of one worker together with
its return value (`return NULL;`, modelled as `none`). -/
def thread_func (thread_num : Nat) : List Act × Option Unit :=
  (thread_loop thread_num 0 ++ [Act.print (Line.finished thread_num)], none)

/-- The launcher's program counter inside `main`:
before the first `printf`; in the spawn loop at index `i`; in the join
loop (the join counter lives in the state); after the final `printf`
(about to `return 0`); or after `return -1`. -/
inductive MainPC where
  | start
  | spawning (i : Nat)
  | joining
  | done
  | failed
  deriving DecidableEq, Repr

/-- Global state: launcher pc, the populated prefix of `thread_id`, the
progress of each spawned thread (`pcs[k]` counts the lines thread `k`
has printed: `< 5` still in the loop, `= 5` about to print "finished",
`= 6` terminated), and the join counter `join_num`. -/
structure State where
  main : MainPC
  ids : List Nat
  pcs : List Nat
  jn : Nat
  deriving DecidableEq, Repr

/-- Initial state: `main` not yet started, no thread spawned. -/
def initState : State := ⟨MainPC.start, [], [], 0⟩

/-- The value `main` returns, when it has returned. -/
def return_value : MainPC → Option Int
  | MainPC.done => some 0
  | MainPC.failed => some (-1)
  | _ => none

/-- One interleaving step.  Launcher steps follow `main` line by line;
`workerRun`/`workerFin` let any spawned, unfinished thread print its
next line (the `sleep(1)` between prints is invisible in the output and
is absorbed into the step).  `join` models `pthread_join` completing:
it can only fire once the joined thread has terminated (`pc = 6`). -/
inductive Step (N : Nat) : State → List Line → State → Prop where
  | creating (ids pcs : List Nat) (jn : Nat) :
      Step N ⟨MainPC.start, ids, pcs, jn⟩ [Line.creating] ⟨MainPC.spawning 0, ids, pcs, jn⟩
  | spawnOk (i : Nat) (ids pcs : List Nat) (jn : Nat) (h : i < N) :
      Step N ⟨MainPC.spawning i, ids, pcs, jn⟩ []
        ⟨MainPC.spawning (i + 1), ids ++ [thread_id_val i], pcs ++ [0], jn⟩
  | spawnFail (i : Nat) (ids pcs : List Nat) (jn e : Nat) (h : i < N) (he : e ≠ 0) :
      Step N ⟨MainPC.spawning i, ids, pcs, jn⟩ [Line.errDiag e]
        ⟨MainPC.failed, ids ++ [thread_id_val i], pcs, jn⟩
  | spawnDone (i : Nat) (ids pcs : List Nat) (jn : Nat) (h : ¬ i < N) :
      Step N ⟨MainPC.spawning i, ids, pcs, jn⟩ [Line.waitingMsg] ⟨MainPC.joining, ids, pcs, 0⟩
  | join (ids pcs : List Nat) (jn : Nat) (h : jn < N)
      (hpc : pcs[jn]? = some (loop_bound + 1)) :
      Step N ⟨MainPC.joining, ids, pcs, jn⟩ [] ⟨MainPC.joining, ids, pcs, jn + 1⟩
  | joinDone (ids pcs : List Nat) (jn : Nat) (h : ¬ jn < N) :
      Step N ⟨MainPC.joining, ids, pcs, jn⟩ [Line.allFinished] ⟨MainPC.done, ids, pcs, jn⟩
  | workerRun (m : MainPC) (ids pcs : List Nat) (jn k pc tid : Nat)
      (hpc : pcs[k]? = some pc) (hid : ids[k]? = some tid) (h : pc < loop_bound) :
      Step N ⟨m, ids, pcs, jn⟩ [Line.running tid] ⟨m, ids, pcs.set k (pc + 1), jn⟩
  | workerFin (m : MainPC) (ids pcs : List Nat) (jn k pc tid : Nat)
      (hpc : pcs[k]? = some pc) (hid : ids[k]? = some tid) (h : pc = loop_bound) :
      Step N ⟨m, ids, pcs, jn⟩ [Line.finished tid] ⟨m, ids, pcs.set k (pc + 1), jn⟩

/-- Finitely many steps, accumulating the emitted lines. -/
inductive Run (N : Nat) : State → List Line → State → Prop where
  | refl (s : State) : Run N s [] s
  | step {s₁ : State} {tr : List Line} {s₂ : State} {out : List Line} {s₃ : State} :
      Run N s₁ tr s₂ → Step N s₂ out s₃ → Run N s₁ (tr ++ out) s₃

/-! ### The worker's action sequence -/

theorem thread_loop_eq (n : Nat) : ∀ (j i : Nat), loop_bound - i = j →
    thread_loop n i =
      (List.replicate j [Act.print (Line.running n), Act.sleepSec 1]).flatten := by
  intro j
  induction j with
  | zero =>
      intro i hi
      rw [thread_loop]
      rw [dif_neg (by omega)]
      simp
  | succ j ih =>
      intro i hi
      rw [thread_loop]
      rw [dif_pos (show i < loop_bound by omega)]
      rw [ih (i + 1) (by omega)]
      simp [List.replicate_succ]

theorem thread_func_eq (n : Nat) :
    (thread_func n).1 =
      (List.replicate loop_bound [Act.print (Line.running n), Act.sleepSec 1]).flatten ++
        [Act.print (Line.finished n)] := by
  show thread_loop n 0 ++ _ = _
  rw [thread_loop_eq n loop_bound 0 rfl]

/-- C1: `worker_task(identifier)` performs exactly 5 iterations, each emitting
one "running" status line carrying the identifier and then sleeping 1 second;
after the 5th iteration it emits exactly one "finished" line carrying the
identifier, and it terminates normally returning `NULL` (no value) to the
launcher.  The rendered lines carry the identifier in their text. -/
theorem C1_worker_task (n : Nat) :
    (thread_func n).1 =
      (List.replicate 5 [Act.print (Line.running n), Act.sleepSec 1]).flatten ++
        [Act.print (Line.finished n)] ∧
    (thread_func n).1.count (Act.print (Line.running n)) = 5 ∧
    (thread_func n).1.count (Act.print (Line.finished n)) = 1 ∧
    (thread_func n).2 = none ∧
    render (Line.running n) = "Thread: " ++ toString n ++ " running" ∧
    render (Line.finished n) = "Thread: " ++ toString n ++ " finished" := by
  have he := thread_func_eq n
  refine ⟨he, ?_, ?_, rfl, rfl, rfl⟩
  · rw [he]
    simp [loop_bound, List.replicate_succ, List.count_append, List.count_cons,
      List.count_nil]
  · rw [he]
    simp [loop_bound, List.replicate_succ, List.count_append, List.count_cons,
      List.count_nil]

/-! ### List helpers -/

theorem count_snoc (l : List Line) (a b : Line) :
    (l ++ [b]).count a = l.count a + if b = a then 1 else 0 := by
  simp [List.count_append, List.count_singleton]

theorem countP_snoc (p : Line → Bool) (l : List Line) (b : Line) :
    (l ++ [b]).countP p = l.countP p + if p b then 1 else 0 := by
  rw [List.countP_append]
  simp [List.countP_cons]

theorem sum_map_set (f : Nat → Nat) :
    ∀ (l : List Nat) (k x pc : Nat), l[k]? = some pc →
      ((l.set k x).map f).sum + f pc = (l.map f).sum + f x := by
  intro l
  induction l with
  | nil => intro k x pc h; simp at h
  | cons a l ih =>
      intro k x pc h
      cases k with
      | zero =>
          simp only [List.getElem?_cons_zero, Option.some_inj] at h
          subst h
          simp [List.set]
          omega
      | succ k =>
          simp only [List.getElem?_cons_succ] at h
          have := ih k x pc h
          simp [List.set] at this ⊢
          omega

/-! ### Per-identifier output bookkeeping -/

/-- The progress slot of the thread with identifier `n`: identifier `n`
was written into slot `n - 1` (`thread_id[k] = k + 1`). -/
def pcOfId (pcs : List Nat) (n : Nat) : Option Nat :=
  if n = 0 then none else pcs[n - 1]?

/-- How many "running" lines the thread with identifier `n` has printed. -/
def runsOf (pcs : List Nat) (n : Nat) : Nat :=
  match pcOfId pcs n with
  | none => 0
  | some pc => min pc loop_bound

/-- How many "finished" lines the thread with identifier `n` has printed. -/
def finsOf (pcs : List Nat) (n : Nat) : Nat :=
  match pcOfId pcs n with
  | none => 0
  | some pc => if loop_bound < pc then 1 else 0

theorem runsOf_snoc_zero (pcs : List Nat) (n : Nat) :
    runsOf (pcs ++ [0]) n = runsOf pcs n := by
  unfold runsOf pcOfId
  by_cases h0 : n = 0
  · simp [h0]
  · simp only [if_neg h0]
    rw [List.getElem?_append]
    by_cases hlt : n - 1 < pcs.length
    · simp [hlt]
    · rw [if_neg hlt]
      rw [List.getElem?_eq_none (by omega : pcs.length ≤ n - 1)]
      by_cases he : n - 1 - pcs.length = 0
      · simp [he]
      · rw [List.getElem?_eq_none (by simp; omega)]

theorem finsOf_snoc_zero (pcs : List Nat) (n : Nat) :
    finsOf (pcs ++ [0]) n = finsOf pcs n := by
  unfold finsOf pcOfId
  by_cases h0 : n = 0
  · simp [h0]
  · simp only [if_neg h0]
    rw [List.getElem?_append]
    by_cases hlt : n - 1 < pcs.length
    · simp [hlt]
    · rw [if_neg hlt]
      rw [List.getElem?_eq_none (by omega : pcs.length ≤ n - 1)]
      by_cases he : n - 1 - pcs.length = 0
      · simp [he, loop_bound]
      · rw [List.getElem?_eq_none (by simp; omega)]

theorem runsOf_set_self (pcs : List Nat) (k pc x : Nat) (h : pcs[k]? = some pc) :
    runsOf (pcs.set k x) (k + 1) = min x loop_bound := by
  have hk : k < pcs.length := by
    rcases List.getElem?_eq_some.mp h with ⟨hk, _⟩
    exact hk
  unfold runsOf pcOfId
  simp [List.getElem?_set_self (by simpa using hk)]

theorem runsOf_set_other (pcs : List Nat) (k x n : Nat) (h : n ≠ k + 1) :
    runsOf (pcs.set k x) n = runsOf pcs n := by
  unfold runsOf pcOfId
  by_cases h0 : n = 0
  · simp [h0]
  · simp only [if_neg h0]
    rw [List.getElem?_set_ne (by omega : k ≠ n - 1)]

theorem finsOf_set_self (pcs : List Nat) (k pc x : Nat) (h : pcs[k]? = some pc) :
    finsOf (pcs.set k x) (k + 1) = if loop_bound < x then 1 else 0 := by
  have hk : k < pcs.length := by
    rcases List.getElem?_eq_some.mp h with ⟨hk, _⟩
    exact hk
  unfold finsOf pcOfId
  simp [List.getElem?_set_self (by simpa using hk)]

theorem finsOf_set_other (pcs : List Nat) (k x n : Nat) (h : n ≠ k + 1) :
    finsOf (pcs.set k x) n = finsOf pcs n := by
  unfold finsOf pcOfId
  by_cases h0 : n = 0
  · simp [h0]
  · simp only [if_neg h0]
    rw [List.getElem?_set_ne (by omega : k ≠ n - 1)]

def waitFlag : MainPC → Nat
  | MainPC.joining => 1
  | MainPC.done => 1
  | _ => 0

def doneFlag : MainPC → Nat
  | MainPC.done => 1
  | _ => 0

def errFlag : MainPC → Nat
  | MainPC.failed => 1
  | _ => 0

theorem runsOf_nil (n : Nat) : runsOf [] n = 0 := by
  unfold runsOf pcOfId
  by_cases h : n = 0 <;> simp [h]

theorem finsOf_nil (n : Nat) : finsOf [] n = 0 := by
  unfold finsOf pcOfId
  by_cases h : n = 0 <;> simp [h]

theorem runsOf_at (pcs : List Nat) (k pc : Nat) (h : pcs[k]? = some pc) :
    runsOf pcs (k + 1) = min pc loop_bound := by
  unfold runsOf pcOfId
  simp [h]

theorem finsOf_at (pcs : List Nat) (k pc : Nat) (h : pcs[k]? = some pc) :
    finsOf pcs (k + 1) = if loop_bound < pc then 1 else 0 := by
  unfold finsOf pcOfId
  simp [h]

theorem range'_snoc (n : Nat) :
    List.range' 1 n ++ [n + 1] = List.range' 1 (n + 1) := by
  rw [List.range'_concat]
  simp [Nat.add_comm]

theorem ids_get (ids : List Nat) (h : ids = List.range' 1 ids.length)
    (k tid : Nat) (hk : ids[k]? = some tid) : tid = k + 1 := by
  have hlt : k < ids.length := by
    rcases List.getElem?_eq_some.mp hk with ⟨hlt, _⟩
    exact hlt
  rw [h] at hk
  rw [List.getElem?_range' 1 1 hlt] at hk
  simp at hk
  omega

/-! ### Reachability invariant -/

/-- Invariant tying a reachable state (given by its components) to the
trace `tr` emitted so far. -/
structure Inv (N : Nat) (m : MainPC) (ids pcs : List Nat) (jn : Nat)
    (tr : List Line) : Prop where
  ids_eq : ids = List.range' 1 ids.length
  pcs_le : ∀ pc ∈ pcs, pc ≤ loop_bound + 1
  phase : match m with
    | MainPC.start => ids = [] ∧ pcs = [] ∧ jn = 0 ∧ tr = []
    | MainPC.spawning i => i ≤ N ∧ ids.length = i ∧ pcs.length = i ∧ jn = 0
    | MainPC.joining => ids.length = N ∧ pcs.length = N ∧ jn ≤ N
    | MainPC.done => ids.length = N ∧ pcs.length = N ∧ jn = N
    | MainPC.failed => ids.length ≤ N ∧ pcs.length + 1 = ids.length ∧ jn = 0
  joined : ∀ k, k < jn → pcs[k]? = some (loop_bound + 1)
  head_creating : m ≠ MainPC.start → ∃ r, tr = Line.creating :: r
  cnt_creating : tr.count Line.creating = if m = MainPC.start then 0 else 1
  cnt_running : ∀ n, tr.count (Line.running n) = runsOf pcs n
  cnt_finished : ∀ n, tr.count (Line.finished n) = finsOf pcs n
  cnt_runTotal : tr.countP isRunningLine =
    (pcs.map (fun pc => min pc loop_bound)).sum
  cnt_finTotal : tr.countP isFinishedLine =
    (pcs.map (fun pc => if loop_bound < pc then 1 else 0)).sum
  cnt_wait : tr.count Line.waitingMsg = waitFlag m
  cnt_all : tr.count Line.allFinished = doneFlag m
  cnt_err : tr.countP isErrLine = errFlag m
  err_code : ∀ e, Line.errDiag e ∈ tr → e ≠ 0
  last_all : m = MainPC.done → ∃ a, tr = a ++ [Line.allFinished]

theorem inv_init (N : Nat) : Inv N MainPC.start [] [] 0 [] := by
  refine ⟨rfl, by simp, ⟨rfl, rfl, rfl, rfl⟩, ?_, ?_, by simp, ?_, ?_,
    by simp [waitFlag], by simp [doneFlag], by simp [waitFlag], by simp [doneFlag],
    by simp [errFlag], by simp, by simp⟩
  · intro k hk
    exact absurd hk (Nat.not_lt_zero k)
  · intro h
    exact absurd rfl h
  · intro n
    simp [runsOf_nil]
  · intro n
    simp [finsOf_nil]

theorem sum_min_set (pcs : List Nat) (k x pc : Nat) (h : pcs[k]? = some pc) :
    ((pcs.set k x).map (fun v => min v loop_bound)).sum + min pc loop_bound =
      (pcs.map (fun v => min v loop_bound)).sum + min x loop_bound :=
  sum_map_set _ pcs k x pc h

theorem sum_fin_set (pcs : List Nat) (k x pc : Nat) (h : pcs[k]? = some pc) :
    ((pcs.set k x).map (fun v => if loop_bound < v then 1 else 0)).sum +
        (if loop_bound < pc then 1 else 0) =
      (pcs.map (fun v => if loop_bound < v then 1 else 0)).sum +
        (if loop_bound < x then 1 else 0) :=
  sum_map_set _ pcs k x pc h

/-- The invariant is preserved by every step. -/
theorem inv_step {N : Nat} {s s' : State} {tr out : List Line}
    (hstep : Step N s out s')
    (hInv : Inv N s.main s.ids s.pcs s.jn tr) :
    Inv N s'.main s'.ids s'.pcs s'.jn (tr ++ out) := by
  cases hstep with
  | creating ids pcs jn =>
      dsimp only at hInv ⊢
      obtain ⟨hids, hpcs, hjn, htr⟩ := hInv.phase
      subst hids hpcs hjn htr
      refine ⟨rfl, by simp, ⟨Nat.zero_le N, rfl, rfl, rfl⟩, ?_, ?_, by simp, ?_, ?_,
        by simp [isRunningLine], by simp [isFinishedLine],
        by simp [waitFlag, List.count_singleton],
        by simp [doneFlag, List.count_singleton],
        by simp [errFlag, isErrLine], by simp, by simp⟩
      · intro k hk
        exact absurd hk (Nat.not_lt_zero k)
      · intro _
        exact ⟨[], rfl⟩
      · intro n
        simp [runsOf_nil, List.count_singleton]
      · intro n
        simp [finsOf_nil, List.count_singleton]
  | spawnOk i ids pcs jn h =>
      dsimp only at hInv ⊢
      obtain ⟨hiN, hli, hlp, hjn⟩ := hInv.phase
      have hids := hInv.ids_eq
      have hne : MainPC.spawning i ≠ MainPC.start := fun hc => nomatch hc
      refine ⟨?_, ?_, ⟨by omega, by simp [hli], by simp [hlp], hjn⟩, ?_, ?_, ?_,
        ?_, ?_, ?_, ?_, ?_, ?_, ?_, ?_, fun hc => nomatch hc⟩
      · have hkey : ids ++ [thread_id_val i] = List.range' 1 (i + 1) := by
          rw [hids, hli]
          exact range'_snoc i
        rw [hkey]
        simp [List.length_range']
      · intro pc hpc
        rcases List.mem_append.mp hpc with hm | hm
        · exact hInv.pcs_le pc hm
        · simp at hm
          omega
      · intro k hk
        rw [hjn] at hk
        exact absurd hk (Nat.not_lt_zero k)
      · intro _
        obtain ⟨r, hr⟩ := hInv.head_creating hne
        exact ⟨r, by rw [List.append_nil, hr]⟩
      · simpa using hInv.cnt_creating
      · intro n
        rw [List.append_nil, runsOf_snoc_zero]
        exact hInv.cnt_running n
      · intro n
        rw [List.append_nil, finsOf_snoc_zero]
        exact hInv.cnt_finished n
      · rw [List.append_nil]
        simp [List.map_append, List.sum_append, hInv.cnt_runTotal]
      · rw [List.append_nil]
        simp [List.map_append, List.sum_append, hInv.cnt_finTotal, loop_bound]
      · simpa [waitFlag] using hInv.cnt_wait
      · simpa [doneFlag] using hInv.cnt_all
      · simpa [errFlag] using hInv.cnt_err
      · intro e he
        rw [List.append_nil] at he
        exact hInv.err_code e he
  | spawnFail i ids pcs jn e h he =>
      dsimp only at hInv ⊢
      obtain ⟨hiN, hli, hlp, hjn⟩ := hInv.phase
      have hids := hInv.ids_eq
      have hne : MainPC.spawning i ≠ MainPC.start := fun hc => nomatch hc
      obtain ⟨r, hr⟩ := hInv.head_creating hne
      refine ⟨?_, hInv.pcs_le, ⟨by simp [hli]; omega, by simp [hlp, hli], hjn⟩,
        ?_, fun _ => ⟨r ++ [Line.errDiag e], by simp [hr]⟩, ?_, ?_, ?_, ?_, ?_,
        ?_, ?_, ?_, ?_, fun hc => nomatch hc⟩
      · have hkey : ids ++ [thread_id_val i] = List.range' 1 (i + 1) := by
          rw [hids, hli]
          exact range'_snoc i
        rw [hkey]
        simp [List.length_range']
      · intro k hk
        rw [hjn] at hk
        exact absurd hk (Nat.not_lt_zero k)
      · simp [count_snoc, hInv.cnt_creating]
      · intro n
        simp [count_snoc, hInv.cnt_running n]
      · intro n
        simp [count_snoc, hInv.cnt_finished n]
      · simp [countP_snoc, isRunningLine, hInv.cnt_runTotal]
      · simp [countP_snoc, isFinishedLine, hInv.cnt_finTotal]
      · simp [count_snoc, hInv.cnt_wait, waitFlag]
      · simp [count_snoc, hInv.cnt_all, doneFlag]
      · simp [countP_snoc, hInv.cnt_err, errFlag, isErrLine]
      · intro e' he'
        rcases List.mem_append.mp he' with hm | hm
        · exact hInv.err_code e' hm
        · simp at hm
          subst hm
          exact he
  | spawnDone i ids pcs jn h =>
      dsimp only at hInv ⊢
      obtain ⟨hiN, hli, hlp, hjn⟩ := hInv.phase
      have hne : MainPC.spawning i ≠ MainPC.start := fun hc => nomatch hc
      obtain ⟨r, hr⟩ := hInv.head_creating hne
      refine ⟨hInv.ids_eq, hInv.pcs_le, ⟨by omega, by omega, Nat.zero_le N⟩, ?_,
        fun _ => ⟨r ++ [Line.waitingMsg], by simp [hr]⟩, ?_, ?_, ?_, ?_, ?_,
        ?_, ?_, ?_, ?_, fun hc => nomatch hc⟩
      · intro k hk
        exact absurd hk (Nat.not_lt_zero k)
      · simp [count_snoc, hInv.cnt_creating]
      · intro n
        simp [count_snoc, hInv.cnt_running n]
      · intro n
        simp [count_snoc, hInv.cnt_finished n]
      · simp [countP_snoc, isRunningLine, hInv.cnt_runTotal]
      · simp [countP_snoc, isFinishedLine, hInv.cnt_finTotal]
      · simp [count_snoc, hInv.cnt_wait, waitFlag]
      · simp [count_snoc, hInv.cnt_all, doneFlag]
      · simp [countP_snoc, hInv.cnt_err, errFlag, isErrLine]
      · intro e' he'
        rcases List.mem_append.mp he' with hm | hm
        · exact hInv.err_code e' hm
        · simp at hm
  | join ids pcs jn h hpc =>
      dsimp only at hInv ⊢
      obtain ⟨hli, hlp, hjN⟩ := hInv.phase
      have hne : MainPC.joining ≠ MainPC.start := fun hc => nomatch hc
      refine ⟨hInv.ids_eq, hInv.pcs_le, ⟨hli, hlp, by omega⟩, ?_, ?_, ?_,
        ?_, ?_, ?_, ?_, ?_, ?_, ?_, ?_, fun hc => nomatch hc⟩
      · intro k hk
        by_cases hkj : k = jn
        · subst hkj
          exact hpc
        · exact hInv.joined k (by omega)
      · intro _
        simpa using hInv.head_creating hne
      · simpa using hInv.cnt_creating
      · intro n
        simpa using hInv.cnt_running n
      · intro n
        simpa using hInv.cnt_finished n
      · simpa using hInv.cnt_runTotal
      · simpa using hInv.cnt_finTotal
      · simpa using hInv.cnt_wait
      · simpa using hInv.cnt_all
      · simpa using hInv.cnt_err
      · intro e he
        rw [List.append_nil] at he
        exact hInv.err_code e he
  | joinDone ids pcs jn h =>
      dsimp only at hInv ⊢
      obtain ⟨hli, hlp, hjN⟩ := hInv.phase
      have hne : MainPC.joining ≠ MainPC.start := fun hc => nomatch hc
      obtain ⟨r, hr⟩ := hInv.head_creating hne
      refine ⟨hInv.ids_eq, hInv.pcs_le, ⟨hli, hlp, by omega⟩, hInv.joined,
        fun _ => ⟨r ++ [Line.allFinished], by simp [hr]⟩, ?_, ?_, ?_, ?_, ?_,
        ?_, ?_, ?_, ?_, fun _ => ⟨tr, rfl⟩⟩
      · simp [count_snoc, hInv.cnt_creating]
      · intro n
        simp [count_snoc, hInv.cnt_running n]
      · intro n
        simp [count_snoc, hInv.cnt_finished n]
      · simp [countP_snoc, isRunningLine, hInv.cnt_runTotal]
      · simp [countP_snoc, isFinishedLine, hInv.cnt_finTotal]
      · simp [count_snoc, hInv.cnt_wait, waitFlag]
      · simp [count_snoc, hInv.cnt_all, doneFlag]
      · simp [countP_snoc, hInv.cnt_err, errFlag, isErrLine]
      · intro e' he'
        rcases List.mem_append.mp he' with hm | hm
        · exact hInv.err_code e' hm
        · simp at hm
  | workerRun m ids pcs jn k pc tid hpc hid h =>
      dsimp only at hInv ⊢
      have hklen : k < pcs.length := by
        rcases List.getElem?_eq_some.mp hpc with ⟨hlt, _⟩
        exact hlt
      have htid : tid = k + 1 := ids_get ids hInv.ids_eq k tid hid
      subst htid
      have hmstart : m ≠ MainPC.start := by
        intro hm
        subst hm
        obtain ⟨_, hpcs0, _, _⟩ := hInv.phase
        rw [hpcs0] at hpc
        simp at hpc
      have hmdone : m ≠ MainPC.done := by
        intro hm
        subst hm
        obtain ⟨_, hlp, hjN⟩ := hInv.phase
        have hj := hInv.joined k (by omega)
        rw [hpc] at hj
        simp at hj
        omega
      obtain ⟨r, hr⟩ := hInv.head_creating hmstart
      refine ⟨hInv.ids_eq, ?_, ?_, ?_,
        fun _ => ⟨r ++ [Line.running (k + 1)], by simp [hr]⟩, ?_, ?_, ?_, ?_, ?_,
        ?_, ?_, ?_, ?_, fun hm => absurd hm hmdone⟩
      · intro pc' hpc'
        rcases List.mem_or_eq_of_mem_set hpc' with hm | hm
        · exact hInv.pcs_le pc' hm
        · omega
      · cases m with
        | start => exact absurd rfl hmstart
        | spawning i =>
            obtain ⟨h1, h2, h3, h4⟩ := hInv.phase
            exact ⟨h1, h2, by simpa using h3, h4⟩
        | joining =>
            obtain ⟨h1, h2, h3⟩ := hInv.phase
            exact ⟨h1, by simpa using h2, h3⟩
        | done => exact absurd rfl hmdone
        | failed =>
            obtain ⟨h1, h2, h3⟩ := hInv.phase
            exact ⟨h1, by simpa using h2, h3⟩
      · intro k' hk'
        by_cases hkk : k = k'
        · subst hkk
          have hj := hInv.joined k hk'
          rw [hpc] at hj
          simp at hj
          exact absurd hj (by omega)
        · rw [List.getElem?_set_ne hkk]
          exact hInv.joined k' hk'
      · simp [count_snoc, hInv.cnt_creating]
      · intro n
        by_cases hn : n = k + 1
        · subst hn
          rw [count_snoc, hInv.cnt_running (k + 1), runsOf_at pcs k pc hpc,
            runsOf_set_self pcs k pc (pc + 1) hpc, if_pos rfl]
          omega
        · rw [count_snoc, if_neg (by simp; omega),
            runsOf_set_other pcs k (pc + 1) n hn, Nat.add_zero]
          exact hInv.cnt_running n
      · intro n
        by_cases hn : n = k + 1
        · subst hn
          rw [count_snoc, if_neg (by simp), finsOf_set_self pcs k pc (pc + 1) hpc,
            Nat.add_zero, hInv.cnt_finished, finsOf_at pcs k pc hpc]
          rw [if_neg (by omega : ¬ loop_bound < pc),
            if_neg (by omega : ¬ loop_bound < pc + 1)]
        · rw [count_snoc, if_neg (by simp), finsOf_set_other pcs k (pc + 1) n hn,
            Nat.add_zero]
          exact hInv.cnt_finished n
      · have hs := sum_min_set pcs k (pc + 1) pc hpc
        rw [countP_snoc, hInv.cnt_runTotal]
        simp [isRunningLine] at hs ⊢
        omega
      · have hs := sum_fin_set pcs k (pc + 1) pc hpc
        rw [if_neg (by omega : ¬ loop_bound < pc),
          if_neg (by omega : ¬ loop_bound < pc + 1)] at hs
        rw [countP_snoc, hInv.cnt_finTotal]
        simp [isFinishedLine] at hs ⊢
        omega
      · simp [count_snoc, hInv.cnt_wait]
      · simp [count_snoc, hInv.cnt_all]
      · simp [countP_snoc, hInv.cnt_err, isErrLine]
      · intro e' he'
        rcases List.mem_append.mp he' with hm | hm
        · exact hInv.err_code e' hm
        · simp at hm
  | workerFin m ids pcs jn k pc tid hpc hid h =>
      dsimp only at hInv ⊢
      have hklen : k < pcs.length := by
        rcases List.getElem?_eq_some.mp hpc with ⟨hlt, _⟩
        exact hlt
      have htid : tid = k + 1 := ids_get ids hInv.ids_eq k tid hid
      subst htid
      have hmstart : m ≠ MainPC.start := by
        intro hm
        subst hm
        obtain ⟨_, hpcs0, _, _⟩ := hInv.phase
        rw [hpcs0] at hpc
        simp at hpc
      have hmdone : m ≠ MainPC.done := by
        intro hm
        subst hm
        obtain ⟨_, hlp, hjN⟩ := hInv.phase
        have hj := hInv.joined k (by omega)
        rw [hpc] at hj
        simp at hj
        omega
      obtain ⟨r, hr⟩ := hInv.head_creating hmstart
      refine ⟨hInv.ids_eq, ?_, ?_, ?_,
        fun _ => ⟨r ++ [Line.finished (k + 1)], by simp [hr]⟩, ?_, ?_, ?_, ?_, ?_,
        ?_, ?_, ?_, ?_, fun hm => absurd hm hmdone⟩
      · intro pc' hpc'
        rcases List.mem_or_eq_of_mem_set hpc' with hm | hm
        · exact hInv.pcs_le pc' hm
        · omega
      · cases m with
        | start => exact absurd rfl hmstart
        | spawning i =>
            obtain ⟨h1, h2, h3, h4⟩ := hInv.phase
            exact ⟨h1, h2, by simpa using h3, h4⟩
        | joining =>
            obtain ⟨h1, h2, h3⟩ := hInv.phase
            exact ⟨h1, by simpa using h2, h3⟩
        | done => exact absurd rfl hmdone
        | failed =>
            obtain ⟨h1, h2, h3⟩ := hInv.phase
            exact ⟨h1, by simpa using h2, h3⟩
      · intro k' hk'
        by_cases hkk : k = k'
        · subst hkk
          have hj := hInv.joined k hk'
          rw [hpc] at hj
          simp at hj
          exact absurd hj (by omega)
        · rw [List.getElem?_set_ne hkk]
          exact hInv.joined k' hk'
      · simp [count_snoc, hInv.cnt_creating]
      · intro n
        by_cases hn : n = k + 1
        · subst hn
          rw [count_snoc, if_neg (by simp), Nat.add_zero, hInv.cnt_running,
            runsOf_at pcs k pc hpc, runsOf_set_self pcs k pc (pc + 1) hpc]
          omega
        · rw [count_snoc, if_neg (by simp),
            runsOf_set_other pcs k (pc + 1) n hn, Nat.add_zero]
          exact hInv.cnt_running n
      · intro n
        by_cases hn : n = k + 1
        · subst hn
          rw [count_snoc, hInv.cnt_finished (k + 1), finsOf_at pcs k pc hpc,
            finsOf_set_self pcs k pc (pc + 1) hpc, if_pos rfl]
          rw [if_neg (by omega : ¬ loop_bound < pc),
            if_pos (by omega : loop_bound < pc + 1)]
        · rw [count_snoc, if_neg (by simp; omega),
            finsOf_set_other pcs k (pc + 1) n hn, Nat.add_zero]
          exact hInv.cnt_finished n
      · have hs := sum_min_set pcs k (pc + 1) pc hpc
        rw [countP_snoc, hInv.cnt_runTotal]
        simp [isRunningLine] at hs ⊢
        omega
      · have hs := sum_fin_set pcs k (pc + 1) pc hpc
        rw [if_neg (by omega : ¬ loop_bound < pc),
          if_pos (by omega : loop_bound < pc + 1)] at hs
        rw [countP_snoc, hInv.cnt_finTotal]
        simp [isFinishedLine] at hs ⊢
        omega
      · simp [count_snoc, hInv.cnt_wait]
      · simp [count_snoc, hInv.cnt_all]
      · simp [countP_snoc, hInv.cnt_err, isErrLine]
      · intro e' he'
        rcases List.mem_append.mp he' with hm | hm
        · exact hInv.err_code e' hm
        · simp at hm

theorem inv_run_aux {N : Nat} {s0 : State} {tr : List Line} {s : State}
    (h : Run N s0 tr s) :
    ∀ tr0 : List Line, Inv N s0.main s0.ids s0.pcs s0.jn tr0 →
      Inv N s.main s.ids s.pcs s.jn (tr0 ++ tr) := by
  induction h with
  | refl =>
      intro tr0 h0
      simpa using h0
  | step h1 h2 ih =>
      intro tr0 h0
      rw [← List.append_assoc]
      exact inv_step h2 (ih tr0 h0)

/-- Every reachable state satisfies the invariant. -/
theorem inv_run {N : Nat} {tr : List Line} {s : State}
    (h : Run N initState tr s) : Inv N s.main s.ids s.pcs s.jn tr := by
  have hmain := inv_run_aux h [] (inv_init N)
  simpa using hmain

theorem step_out {N : Nat} {s : State} {out : List Line} {s' : State}
    (h : Step N s out s') : out = [] ∨ ∃ e, out = [e] := by
  cases h with
  | creating ids pcs jn => exact Or.inr ⟨_, rfl⟩
  | spawnOk i ids pcs jn h => exact Or.inl rfl
  | spawnFail i ids pcs jn e h he => exact Or.inr ⟨_, rfl⟩
  | spawnDone i ids pcs jn h => exact Or.inr ⟨_, rfl⟩
  | join ids pcs jn h hpc => exact Or.inl rfl
  | joinDone ids pcs jn h => exact Or.inr ⟨_, rfl⟩
  | workerRun m ids pcs jn k pc tid hpc hid h => exact Or.inr ⟨_, rfl⟩
  | workerFin m ids pcs jn k pc tid hpc hid h => exact Or.inr ⟨_, rfl⟩

theorem prefix_snoc_cases {α : Type} (p l : List α) (e : α) (h : p <+: l ++ [e]) :
    p <+: l ∨ p = l ++ [e] := by
  by_cases hlen : p.length ≤ l.length
  · exact Or.inl (List.prefix_of_prefix_length_le h (List.prefix_append l [e]) hlen)
  · right
    refine h.eq_of_length ?_
    have hle := h.length_le
    simp at hle ⊢
    omega

/-- Every prefix of a trace of a run is itself the trace of a run: steps
emit at most one line each. -/
theorem prefixRun {N : Nat} {tr : List Line} {s : State}
    (h : Run N initState tr s) :
    ∀ p : List Line, p <+: tr → ∃ s', Run N initState p s' := by
  induction h with
  | refl =>
      intro p hp
      rw [List.prefix_nil.mp hp]
      exact ⟨_, Run.refl _⟩
  | step h1 h2 ih =>
      intro p hp
      rcases step_out h2 with ho | ⟨e, ho⟩
      · subst ho
        rw [List.append_nil] at hp
        exact ih p hp
      · subst ho
        rcases prefix_snoc_cases p _ e hp with hp' | hp'
        · exact ih p hp'
        · subst hp'
          exact ⟨_, Run.step h1 h2⟩

/-! ### Termination measure -/

/-- A natural-number rank that strictly decreases on every step: the
spawn loop, the join loop and each worker loop are all bounded. -/
def rank (N : Nat) (s : State) : Nat :=
  (match s.main with
    | MainPC.start => N * (loop_bound + 2) + N + 3
    | MainPC.spawning i => (N - i) * (loop_bound + 2) + N + 2
    | MainPC.joining => (N - s.jn) + 1
    | MainPC.done => 0
    | MainPC.failed => 0) +
  (s.pcs.map (fun pc => loop_bound + 1 - pc)).sum

theorem sum_rank_set (pcs : List Nat) (k x pc : Nat) (h : pcs[k]? = some pc) :
    ((pcs.set k x).map (fun v => loop_bound + 1 - v)).sum + (loop_bound + 1 - pc) =
      (pcs.map (fun v => loop_bound + 1 - v)).sum + (loop_bound + 1 - x) :=
  sum_map_set _ pcs k x pc h

/-- Each step emits at most one line and strictly decreases the rank. -/
theorem step_rank {N : Nat} {s : State} {out : List Line} {s' : State}
    (h : Step N s out s') :
    out.length + rank N s' ≤ rank N s ∧ rank N s' < rank N s := by
  cases h with
  | creating ids pcs jn =>
      simp [rank, loop_bound]
      omega
  | spawnOk i ids pcs jn h =>
      simp [rank, loop_bound]
      omega
  | spawnFail i ids pcs jn e h he =>
      simp [rank, loop_bound]
  | spawnDone i ids pcs jn h =>
      simp [rank, loop_bound]
      omega
  | join ids pcs jn h hpc =>
      simp [rank, loop_bound]
      omega
  | joinDone ids pcs jn h =>
      simp [rank, loop_bound]
  | workerRun m ids pcs jn k pc tid hpc hid h =>
      have hs := sum_rank_set pcs k (pc + 1) pc hpc
      simp only [rank, List.length_cons, List.length_nil]
      omega
  | workerFin m ids pcs jn k pc tid hpc hid h =>
      have hs := sum_rank_set pcs k (pc + 1) pc hpc
      simp only [rank, List.length_cons, List.length_nil]
      omega

/-- The emitted trace of any run is bounded by the initial rank. -/
theorem run_length_bound {N : Nat} {s0 : State} {tr : List Line} {s : State}
    (h : Run N s0 tr s) : tr.length + rank N s ≤ rank N s0 := by
  induction h with
  | refl => simp
  | step h1 h2 ih =>
      have hstep := (step_rank h2).1
      simp only [List.length_append]
      omega

/-! ### The zero-worker launch is deterministic -/

theorem run0_cases {tr : List Line} {s : State} (h : Run 0 initState tr s) :
    (s = ⟨MainPC.start, [], [], 0⟩ ∧ tr = []) ∨
    (s = ⟨MainPC.spawning 0, [], [], 0⟩ ∧ tr = [Line.creating]) ∨
    (s = ⟨MainPC.joining, [], [], 0⟩ ∧ tr = [Line.creating, Line.waitingMsg]) ∨
    (s = ⟨MainPC.done, [], [], 0⟩ ∧
      tr = [Line.creating, Line.waitingMsg, Line.allFinished]) := by
  induction h with
  | refl => exact Or.inl ⟨rfl, rfl⟩
  | step h1 h2 ih =>
      rcases ih with ⟨hs, ht⟩ | ⟨hs, ht⟩ | ⟨hs, ht⟩ | ⟨hs, ht⟩ <;> subst hs <;> subst ht
      · cases h2 with
        | creating ids pcs jn => exact Or.inr (Or.inl ⟨rfl, rfl⟩)
        | workerRun m ids pcs jn k pc tid hpc hid h => simp at hpc
        | workerFin m ids pcs jn k pc tid hpc hid h => simp at hpc
      · cases h2 with
        | spawnOk i ids pcs jn h => omega
        | spawnFail i ids pcs jn e h he => omega
        | spawnDone i ids pcs jn h => exact Or.inr (Or.inr (Or.inl ⟨rfl, rfl⟩))
        | workerRun m ids pcs jn k pc tid hpc hid h => simp at hpc
        | workerFin m ids pcs jn k pc tid hpc hid h => simp at hpc
      · cases h2 with
        | join ids pcs jn h hpc => omega
        | joinDone ids pcs jn h => exact Or.inr (Or.inr (Or.inr ⟨rfl, rfl⟩))
        | workerRun m ids pcs jn k pc tid hpc hid h => simp at hpc
        | workerFin m ids pcs jn k pc tid hpc hid h => simp at hpc
      · cases h2 with
        | workerRun m ids pcs jn k pc tid hpc hid h => simp at hpc
        | workerFin m ids pcs jn k pc tid hpc hid h => simp at hpc

/-! ### Concrete runs -/

/-- One possible complete successful trace of the 3-thread program
(the schedule that runs each thread to completion in turn). -/
def trace3 : List Line :=
  [Line.creating, Line.waitingMsg,
   Line.running 1, Line.running 1, Line.running 1, Line.running 1, Line.running 1,
   Line.finished 1,
   Line.running 2, Line.running 2, Line.running 2, Line.running 2, Line.running 2,
   Line.finished 2,
   Line.running 3, Line.running 3, Line.running 3, Line.running 3, Line.running 3,
   Line.finished 3,
   Line.allFinished]

def doneState3 : State := ⟨MainPC.done, [1, 2, 3], [6, 6, 6], 3⟩

theorem run3_done : Run 3 initState trace3 doneState3 := by
  have h0 : Run 3 initState [] initState := Run.refl _
  have h1 : Run 3 initState [Line.creating] ⟨MainPC.spawning 0, [], [], 0⟩ :=
    h0.step (Step.creating [] [] 0)
  have h2 : Run 3 initState [Line.creating] ⟨MainPC.spawning 1, [1], [0], 0⟩ :=
    h1.step (Step.spawnOk 0 [] [] 0 (by decide))
  have h3 : Run 3 initState [Line.creating] ⟨MainPC.spawning 2, [1, 2], [0, 0], 0⟩ :=
    h2.step (Step.spawnOk 1 [1] [0] 0 (by decide))
  have h4 : Run 3 initState [Line.creating]
      ⟨MainPC.spawning 3, [1, 2, 3], [0, 0, 0], 0⟩ :=
    h3.step (Step.spawnOk 2 [1, 2] [0, 0] 0 (by decide))
  have h5 : Run 3 initState [Line.creating, Line.waitingMsg]
      ⟨MainPC.joining, [1, 2, 3], [0, 0, 0], 0⟩ :=
    h4.step (Step.spawnDone 3 [1, 2, 3] [0, 0, 0] 0 (by decide))
  have h6 : Run 3 initState
      [Line.creating, Line.waitingMsg, Line.running 1]
      ⟨MainPC.joining, [1, 2, 3], [1, 0, 0], 0⟩ :=
    h5.step (Step.workerRun MainPC.joining [1, 2, 3] [0, 0, 0] 0 0 0 1 rfl rfl (by decide))
  have h7 : Run 3 initState
      [Line.creating, Line.waitingMsg, Line.running 1, Line.running 1]
      ⟨MainPC.joining, [1, 2, 3], [2, 0, 0], 0⟩ :=
    h6.step (Step.workerRun MainPC.joining [1, 2, 3] [1, 0, 0] 0 0 1 1 rfl rfl (by decide))
  have h8 : Run 3 initState
      [Line.creating, Line.waitingMsg, Line.running 1, Line.running 1, Line.running 1]
      ⟨MainPC.joining, [1, 2, 3], [3, 0, 0], 0⟩ :=
    h7.step (Step.workerRun MainPC.joining [1, 2, 3] [2, 0, 0] 0 0 2 1 rfl rfl (by decide))
  have h9 : Run 3 initState
      [Line.creating, Line.waitingMsg, Line.running 1, Line.running 1, Line.running 1,
        Line.running 1]
      ⟨MainPC.joining, [1, 2, 3], [4, 0, 0], 0⟩ :=
    h8.step (Step.workerRun MainPC.joining [1, 2, 3] [3, 0, 0] 0 0 3 1 rfl rfl (by decide))
  have h10 : Run 3 initState
      [Line.creating, Line.waitingMsg, Line.running 1, Line.running 1, Line.running 1,
        Line.running 1, Line.running 1]
      ⟨MainPC.joining, [1, 2, 3], [5, 0, 0], 0⟩ :=
    h9.step (Step.workerRun MainPC.joining [1, 2, 3] [4, 0, 0] 0 0 4 1 rfl rfl (by decide))
  have h11 : Run 3 initState
      [Line.creating, Line.waitingMsg, Line.running 1, Line.running 1, Line.running 1,
        Line.running 1, Line.running 1, Line.finished 1]
      ⟨MainPC.joining, [1, 2, 3], [6, 0, 0], 0⟩ :=
    h10.step (Step.workerFin MainPC.joining [1, 2, 3] [5, 0, 0] 0 0 5 1 rfl rfl (by decide))
  have h12 : Run 3 initState
      [Line.creating, Line.waitingMsg, Line.running 1, Line.running 1, Line.running 1,
        Line.running 1, Line.running 1, Line.finished 1, Line.running 2]
      ⟨MainPC.joining, [1, 2, 3], [6, 1, 0], 0⟩ :=
    h11.step (Step.workerRun MainPC.joining [1, 2, 3] [6, 0, 0] 0 1 0 2 rfl rfl (by decide))
  have h13 : Run 3 initState
      [Line.creating, Line.waitingMsg, Line.running 1, Line.running 1, Line.running 1,
        Line.running 1, Line.running 1, Line.finished 1, Line.running 2, Line.running 2]
      ⟨MainPC.joining, [1, 2, 3], [6, 2, 0], 0⟩ :=
    h12.step (Step.workerRun MainPC.joining [1, 2, 3] [6, 1, 0] 0 1 1 2 rfl rfl (by decide))
  have h14 : Run 3 initState
      [Line.creating, Line.waitingMsg, Line.running 1, Line.running 1, Line.running 1,
        Line.running 1, Line.running 1, Line.finished 1, Line.running 2, Line.running 2,
        Line.running 2]
      ⟨MainPC.joining, [1, 2, 3], [6, 3, 0], 0⟩ :=
    h13.step (Step.workerRun MainPC.joining [1, 2, 3] [6, 2, 0] 0 1 2 2 rfl rfl (by decide))
  have h15 : Run 3 initState
      [Line.creating, Line.waitingMsg, Line.running 1, Line.running 1, Line.running 1,
        Line.running 1, Line.running 1, Line.finished 1, Line.running 2, Line.running 2,
        Line.running 2, Line.running 2]
      ⟨MainPC.joining, [1, 2, 3], [6, 4, 0], 0⟩ :=
    h14.step (Step.workerRun MainPC.joining [1, 2, 3] [6, 3, 0] 0 1 3 2 rfl rfl (by decide))
  have h16 : Run 3 initState
      [Line.creating, Line.waitingMsg, Line.running 1, Line.running 1, Line.running 1,
        Line.running 1, Line.running 1, Line.finished 1, Line.running 2, Line.running 2,
        Line.running 2, Line.running 2, Line.running 2]
      ⟨MainPC.joining, [1, 2, 3], [6, 5, 0], 0⟩ :=
    h15.step (Step.workerRun MainPC.joining [1, 2, 3] [6, 4, 0] 0 1 4 2 rfl rfl (by decide))
  have h17 : Run 3 initState
      [Line.creating, Line.waitingMsg, Line.running 1, Line.running 1, Line.running 1,
        Line.running 1, Line.running 1, Line.finished 1, Line.running 2, Line.running 2,
        Line.running 2, Line.running 2, Line.running 2, Line.finished 2]
      ⟨MainPC.joining, [1, 2, 3], [6, 6, 0], 0⟩ :=
    h16.step (Step.workerFin MainPC.joining [1, 2, 3] [6, 5, 0] 0 1 5 2 rfl rfl (by decide))
  have h18 : Run 3 initState
      [Line.creating, Line.waitingMsg, Line.running 1, Line.running 1, Line.running 1,
        Line.running 1, Line.running 1, Line.finished 1, Line.running 2, Line.running 2,
        Line.running 2, Line.running 2, Line.running 2, Line.finished 2, Line.running 3]
      ⟨MainPC.joining, [1, 2, 3], [6, 6, 1], 0⟩ :=
    h17.step (Step.workerRun MainPC.joining [1, 2, 3] [6, 6, 0] 0 2 0 3 rfl rfl (by decide))
  have h19 : Run 3 initState
      [Line.creating, Line.waitingMsg, Line.running 1, Line.running 1, Line.running 1,
        Line.running 1, Line.running 1, Line.finished 1, Line.running 2, Line.running 2,
        Line.running 2, Line.running 2, Line.running 2, Line.finished 2, Line.running 3,
        Line.running 3]
      ⟨MainPC.joining, [1, 2, 3], [6, 6, 2], 0⟩ :=
    h18.step (Step.workerRun MainPC.joining [1, 2, 3] [6, 6, 1] 0 2 1 3 rfl rfl (by decide))
  have h20 : Run 3 initState
      [Line.creating, Line.waitingMsg, Line.running 1, Line.running 1, Line.running 1,
        Line.running 1, Line.running 1, Line.finished 1, Line.running 2, Line.running 2,
        Line.running 2, Line.running 2, Line.running 2, Line.finished 2, Line.running 3,
        Line.running 3, Line.running 3]
      ⟨MainPC.joining, [1, 2, 3], [6, 6, 3], 0⟩ :=
    h19.step (Step.workerRun MainPC.joining [1, 2, 3] [6, 6, 2] 0 2 2 3 rfl rfl (by decide))
  have h21 : Run 3 initState
      [Line.creating, Line.waitingMsg, Line.running 1, Line.running 1, Line.running 1,
        Line.running 1, Line.running 1, Line.finished 1, Line.running 2, Line.running 2,
        Line.running 2, Line.running 2, Line.running 2, Line.finished 2, Line.running 3,
        Line.running 3, Line.running 3, Line.running 3]
      ⟨MainPC.joining, [1, 2, 3], [6, 6, 4], 0⟩ :=
    h20.step (Step.workerRun MainPC.joining [1, 2, 3] [6, 6, 3] 0 2 3 3 rfl rfl (by decide))
  have h22 : Run 3 initState
      [Line.creating, Line.waitingMsg, Line.running 1, Line.running 1, Line.running 1,
        Line.running 1, Line.running 1, Line.finished 1, Line.running 2, Line.running 2,
        Line.running 2, Line.running 2, Line.running 2, Line.finished 2, Line.running 3,
        Line.running 3, Line.running 3, Line.running 3, Line.running 3]
      ⟨MainPC.joining, [1, 2, 3], [6, 6, 5], 0⟩ :=
    h21.step (Step.workerRun MainPC.joining [1, 2, 3] [6, 6, 4] 0 2 4 3 rfl rfl (by decide))
  have h23 : Run 3 initState
      [Line.creating, Line.waitingMsg, Line.running 1, Line.running 1, Line.running 1,
        Line.running 1, Line.running 1, Line.finished 1, Line.running 2, Line.running 2,
        Line.running 2, Line.running 2, Line.running 2, Line.finished 2, Line.running 3,
        Line.running 3, Line.running 3, Line.running 3, Line.running 3, Line.finished 3]
      ⟨MainPC.joining, [1, 2, 3], [6, 6, 6], 0⟩ :=
    h22.step (Step.workerFin MainPC.joining [1, 2, 3] [6, 6, 5] 0 2 5 3 rfl rfl (by decide))
  have h24 : Run 3 initState
      [Line.creating, Line.waitingMsg, Line.running 1, Line.running 1, Line.running 1,
        Line.running 1, Line.running 1, Line.finished 1, Line.running 2, Line.running 2,
        Line.running 2, Line.running 2, Line.running 2, Line.finished 2, Line.running 3,
        Line.running 3, Line.running 3, Line.running 3, Line.running 3, Line.finished 3]
      ⟨MainPC.joining, [1, 2, 3], [6, 6, 6], 1⟩ :=
    h23.step (Step.join [1, 2, 3] [6, 6, 6] 0 (by decide) rfl)
  have h25 : Run 3 initState
      [Line.creating, Line.waitingMsg, Line.running 1, Line.running 1, Line.running 1,
        Line.running 1, Line.running 1, Line.finished 1, Line.running 2, Line.running 2,
        Line.running 2, Line.running 2, Line.running 2, Line.finished 2, Line.running 3,
        Line.running 3, Line.running 3, Line.running 3, Line.running 3, Line.finished 3]
      ⟨MainPC.joining, [1, 2, 3], [6, 6, 6], 2⟩ :=
    h24.step (Step.join [1, 2, 3] [6, 6, 6] 1 (by decide) rfl)
  have h26 : Run 3 initState
      [Line.creating, Line.waitingMsg, Line.running 1, Line.running 1, Line.running 1,
        Line.running 1, Line.running 1, Line.finished 1, Line.running 2, Line.running 2,
        Line.running 2, Line.running 2, Line.running 2, Line.finished 2, Line.running 3,
        Line.running 3, Line.running 3, Line.running 3, Line.running 3, Line.finished 3]
      ⟨MainPC.joining, [1, 2, 3], [6, 6, 6], 3⟩ :=
    h25.step (Step.join [1, 2, 3] [6, 6, 6] 2 (by decide) rfl)
  exact h26.step (Step.joinDone [1, 2, 3] [6, 6, 6] 3 (by decide))

/-- The unique complete run of the zero-worker launch. -/
theorem run0_done :
    Run 0 initState [Line.creating, Line.waitingMsg, Line.allFinished]
      ⟨MainPC.done, [], [], 0⟩ := by
  have h0 : Run 0 initState [] initState := Run.refl _
  have h1 : Run 0 initState [Line.creating] ⟨MainPC.spawning 0, [], [], 0⟩ :=
    h0.step (Step.creating [] [] 0)
  have h2 : Run 0 initState [Line.creating, Line.waitingMsg]
      ⟨MainPC.joining, [], [], 0⟩ :=
    h1.step (Step.spawnDone 0 [] [] 0 (by decide))
  exact h2.step (Step.joinDone [] [] 0 (by decide))

/-- A run in which the very first `pthread_create` fails with error
code 11 (`EAGAIN`). -/
theorem run_failed :
    Run 3 initState [Line.creating, Line.errDiag 11]
      ⟨MainPC.failed, [1], [], 0⟩ := by
  have h0 : Run 3 initState [] initState := Run.refl _
  have h1 : Run 3 initState [Line.creating] ⟨MainPC.spawning 0, [], [], 0⟩ :=
    h0.step (Step.creating [] [] 0)
  exact h1.step (Step.spawnFail 0 [] [] 0 11 (by decide) (by decide))

/-! ### Small consequences of the bookkeeping functions -/

theorem finsOf_pos (pcs : List Nat) (n : Nat) (h : 0 < finsOf pcs n) :
    ∃ pc, pcOfId pcs n = some pc ∧ loop_bound < pc := by
  unfold finsOf at h
  rcases hc : pcOfId pcs n with _ | pc
  · rw [hc] at h
    simp at h
  · rw [hc] at h
    dsimp only at h
    refine ⟨pc, rfl, ?_⟩
    by_contra hlt
    rw [if_neg hlt] at h
    simp at h

theorem runsOf_eq (pcs : List Nat) (n pc : Nat) (h : pcOfId pcs n = some pc) :
    runsOf pcs n = min pc loop_bound := by
  unfold runsOf
  rw [h]

theorem pcOfId_mem (pcs : List Nat) (n pc : Nat) (h : pcOfId pcs n = some pc) :
    pc ∈ pcs := by
  unfold pcOfId at h
  by_cases h0 : n = 0
  · rw [if_pos h0] at h
    cases h
  · rw [if_neg h0] at h
    exact List.getElem?_mem h

theorem err_stderr (l : Line) (h : isErrLine l = true) : onStderr l = true := by
  cases l <;> simp [isErrLine, onStderr] at h ⊢

theorem list_eq_three (l : List Nat) (x : Nat) (hl : l.length = 3)
    (h0 : l[0]? = some x) (h1 : l[1]? = some x) (h2 : l[2]? = some x) :
    l = [x, x, x] := by
  rcases l with _ | ⟨a, l⟩
  · simp at hl
  rcases l with _ | ⟨b, l⟩
  · simp at hl
  rcases l with _ | ⟨c, l⟩
  · simp at hl
  rcases l with _ | ⟨d, l⟩
  · simp at h0 h1 h2
    rw [h0, h1, h2]
  · simp at hl

/-! ### Claim theorems -/

/-- C2: in every complete successful run of the 3-worker program, the
output starts with `Creating threads`; it contains exactly 15 "running"
lines in total — exactly 5 for each identifier 1, 2, 3 and none for any
other identifier — and exactly 3 "finished" lines, one per identifier;
every prefix containing an identifier's "finished" line already contains
that identifier's 5 "running" lines (so each "finished" comes after its
5th "running"); the waiting message occurs before the final line;
`All threads finished` is the last line; and `main` returns `0`. -/
theorem C2_launch3 {tr : List Line} {s : State}
    (h : Run num_threads initState tr s) (hdone : s.main = MainPC.done) :
    (∃ r, tr = Line.creating :: r) ∧
    tr.countP isRunningLine = 15 ∧
    (∀ n, 1 ≤ n → n ≤ 3 → tr.count (Line.running n) = 5) ∧
    (∀ n, n = 0 ∨ 3 < n → tr.count (Line.running n) = 0) ∧
    tr.countP isFinishedLine = 3 ∧
    (∀ n, 1 ≤ n → n ≤ 3 → tr.count (Line.finished n) = 1) ∧
    (∀ n p, p <+: tr → Line.finished n ∈ p → p.count (Line.running n) = 5) ∧
    (∃ a, tr = a ++ [Line.allFinished] ∧ Line.waitingMsg ∈ a ∧
      Line.allFinished ∉ a) ∧
    return_value s.main = some 0 := by
  obtain ⟨m, ids, pcs, jn⟩ := s
  dsimp only at hdone
  subst hdone
  have hInv := inv_run h
  dsimp only at hInv
  obtain ⟨hli, hlp, hjn⟩ := hInv.phase
  have hN : num_threads = 3 := rfl
  have hL : loop_bound = 5 := rfl
  have h0 := hInv.joined 0 (by omega)
  have h1 := hInv.joined 1 (by omega)
  have h2 := hInv.joined 2 (by omega)
  have hpcs : pcs = [loop_bound + 1, loop_bound + 1, loop_bound + 1] :=
    list_eq_three pcs (loop_bound + 1) (by omega) h0 h1 h2
  subst hpcs
  refine ⟨hInv.head_creating (fun hc => nomatch hc), ?_, ?_, ?_, ?_, ?_, ?_, ?_, rfl⟩
  · rw [hInv.cnt_runTotal]
    decide
  · intro n hn1 hn3
    interval_cases n <;> rw [hInv.cnt_running] <;> decide
  · intro n hn
    rw [hInv.cnt_running]
    rcases hn with hn | hn
    · subst hn
      decide
    · unfold runsOf pcOfId
      rw [if_neg (by omega)]
      rw [List.getElem?_eq_none (by simp; omega)]
  · rw [hInv.cnt_finTotal]
    decide
  · intro n hn1 hn3
    interval_cases n <;> rw [hInv.cnt_finished] <;> decide
  · intro n p hp hmem
    obtain ⟨s', hrun'⟩ := prefixRun h p hp
    have hInv' := inv_run hrun'
    have hpos : 0 < p.count (Line.finished n) := List.count_pos_iff.mpr hmem
    rw [hInv'.cnt_finished] at hpos
    obtain ⟨pc, hpc, hgt⟩ := finsOf_pos _ _ hpos
    have hple : pc ≤ loop_bound + 1 := hInv'.pcs_le pc (pcOfId_mem _ _ _ hpc)
    rw [hInv'.cnt_running, runsOf_eq _ _ _ hpc]
    omega
  · obtain ⟨a, ha⟩ := hInv.last_all rfl
    subst ha
    have hw := hInv.cnt_wait
    have hal := hInv.cnt_all
    rw [count_snoc] at hw hal
    simp [waitFlag, doneFlag] at hw hal
    refine ⟨a, rfl, ?_, ?_⟩
    · exact List.count_pos_iff.mp (by omega)
    · exact List.count_eq_zero.mp (by omega)

/-- C3: if starting any worker fails, the launcher stops at once: it has
emitted exactly one diagnostic (carrying a nonzero OS error code) on the
error stream, `main` returns `-1`, no further launcher action is possible
from the failed state (no spawn of the remaining tasks, no launcher
output — only the already-started workers may still print), and the
failing transition itself leaves every previously started worker's
state untouched (no cancellation). -/
theorem C3_spawn_failure {N : Nat} {tr : List Line} {s : State}
    (h : Run N initState tr s) (hfail : s.main = MainPC.failed) :
    return_value s.main = some (-1) ∧
    tr.countP isErrLine = 1 ∧
    (∃ l ∈ tr, isErrLine l = true ∧ onStderr l = true) ∧
    (∀ e, Line.errDiag e ∈ tr → e ≠ 0) ∧
    (∀ out s', Step N s out s' →
      s'.main = MainPC.failed ∧ s'.ids = s.ids ∧ s'.pcs.length = s.pcs.length ∧
        ∀ l ∈ out, onStderr l = false ∧ isLauncherStdout l = false) ∧
    (∀ i ids pcs jn out s', Step N ⟨MainPC.spawning i, ids, pcs, jn⟩ out s' →
      s'.main = MainPC.failed → s'.pcs = pcs) := by
  have hInv := inv_run h
  have herr : tr.countP isErrLine = 1 := by
    rw [hInv.cnt_err, hfail]
    rfl
  refine ⟨by rw [hfail]; rfl, herr, ?_, hInv.err_code, ?_, ?_⟩
  · obtain ⟨l, hl, hp⟩ := List.countP_pos_iff.mp (by omega : 0 < tr.countP isErrLine)
    exact ⟨l, hl, hp, err_stderr l hp⟩
  · intro out s' hstep
    cases hstep with
    | creating ids pcs jn => simp at hfail
    | spawnOk i ids pcs jn h => simp at hfail
    | spawnFail i ids pcs jn e h he => simp at hfail
    | spawnDone i ids pcs jn h => simp at hfail
    | join ids pcs jn h hpc => simp at hfail
    | joinDone ids pcs jn h => simp at hfail
    | workerRun m ids pcs jn k pc tid hpc hid h =>
        dsimp only at hfail ⊢
        refine ⟨hfail, rfl, by simp, ?_⟩
        intro l hl
        simp at hl
        subst hl
        exact ⟨rfl, rfl⟩
    | workerFin m ids pcs jn k pc tid hpc hid h =>
        dsimp only at hfail ⊢
        refine ⟨hfail, rfl, by simp, ?_⟩
        intro l hl
        simp at hl
        subst hl
        exact ⟨rfl, rfl⟩
  · intro i ids pcs jn out s' hstep hmain
    cases hstep with
    | spawnOk i ids pcs jn h => simp at hmain
    | spawnFail i ids pcs jn e h he => rfl
    | spawnDone i ids pcs jn h => simp at hmain
    | workerRun m ids pcs jn k pc tid hpc hid h => simp at hmain
    | workerFin m ids pcs jn k pc tid hpc hid h => simp at hmain

/-- C4: in every successful run (any worker count `N`), the
`All threads finished` line is the last line; every worker's "finished"
line occurs strictly before it; on termination every worker has reached
its terminal state (`pc = 6`) and all `N` joins have completed. -/
theorem C4_all_finished_last {N : Nat} {tr : List Line} {s : State}
    (h : Run N initState tr s) (hdone : s.main = MainPC.done) :
    ∃ a, tr = a ++ [Line.allFinished] ∧
      Line.allFinished ∉ a ∧
      (∀ k, k < N → Line.finished (k + 1) ∈ a) ∧
      (∀ pc ∈ s.pcs, pc = loop_bound + 1) ∧
      s.jn = N := by
  obtain ⟨m, ids, pcs, jn⟩ := s
  dsimp only at hdone ⊢
  subst hdone
  have hInv := inv_run h
  dsimp only at hInv
  obtain ⟨hli, hlp, hjn⟩ := hInv.phase
  obtain ⟨a, ha⟩ := hInv.last_all rfl
  subst ha
  have hal := hInv.cnt_all
  rw [count_snoc] at hal
  simp [doneFlag] at hal
  refine ⟨a, rfl, List.count_eq_zero.mp (by omega), ?_, ?_, hjn⟩
  · intro k hk
    have hj := hInv.joined k (by omega)
    have hcf := hInv.cnt_finished (k + 1)
    rw [finsOf_at pcs k (loop_bound + 1) hj, if_pos (by omega)] at hcf
    have hmem : Line.finished (k + 1) ∈ a ++ [Line.allFinished] :=
      List.count_pos_iff.mp (by omega)
    rcases List.mem_append.mp hmem with hm | hm
    · exact hm
    · simp at hm
  · intro pc hpc
    obtain ⟨k, hk⟩ := List.mem_iff_getElem?.mp hpc
    have hklen : k < pcs.length := by
      rcases List.getElem?_eq_some.mp hk with ⟨hlt, _⟩
      exact hlt
    have hj := hInv.joined k (by omega)
    rw [hk] at hj
    simp at hj
    omega

/-- C5: the launcher writes identifier `i + 1` into slot `i` before the
corresponding spawn, so the populated identifiers always form the gapless
duplicate-free sequence `1, 2, …`; once all spawns succeeded they are
exactly `1..N`; and a worker's "running" line always carries the value
read from that worker's own identifier slot. -/
theorem C5_identifiers {N : Nat} {tr : List Line} {s : State}
    (h : Run N initState tr s) :
    s.ids = List.range' 1 s.ids.length ∧
    s.ids.Nodup ∧
    (∀ k tid, s.ids[k]? = some tid → tid = k + 1) ∧
    ((s.main = MainPC.joining ∨ s.main = MainPC.done) →
      s.ids = List.range' 1 N) ∧
    (∀ s₀ out s₁ n, Step N s₀ out s₁ → Line.running n ∈ out →
      ∃ (k : Nat) (pc : Nat), s₀.ids[k]? = some n ∧ s₀.pcs[k]? = some pc) := by
  have hInv := inv_run h
  refine ⟨hInv.ids_eq, ?_, ?_, ?_, ?_⟩
  · rw [hInv.ids_eq]
    exact List.nodup_range' 1 s.ids.length
  · intro k tid hk
    exact ids_get s.ids hInv.ids_eq k tid hk
  · intro hm
    have hlen : s.ids.length = N := by
      rcases hm with hm | hm
      · obtain ⟨m, ids, pcs, jn⟩ := s
        dsimp only at hm ⊢
        subst hm
        exact (inv_run h).phase.1
      · obtain ⟨m, ids, pcs, jn⟩ := s
        dsimp only at hm ⊢
        subst hm
        exact (inv_run h).phase.1
    rw [← hlen]
    exact hInv.ids_eq
  · intro s₀ out s₁ n hstep hmem
    cases hstep with
    | creating ids pcs jn => simp at hmem
    | spawnOk i ids pcs jn h => simp at hmem
    | spawnFail i ids pcs jn e h he => simp at hmem
    | spawnDone i ids pcs jn h => simp at hmem
    | join ids pcs jn h hpc => simp at hmem
    | joinDone ids pcs jn h => simp at hmem
    | workerRun m ids pcs jn k pc tid hpc hid h =>
        simp at hmem
        subst hmem
        exact ⟨k, pc, hid, hpc⟩
    | workerFin m ids pcs jn k pc tid hpc hid h => simp at hmem

/-- C6: in every complete successful run the launcher emits its three
progress lines exactly once each: `Creating threads` is the very first
line, `All threads finished` the very last; moreover, in any reachable
point of any run, before `Creating threads` is emitted nothing has been
spawned, once the waiting message has been emitted all `N` spawns have
succeeded, and until it is emitted no join has completed. -/
theorem C6_progress_lines {N : Nat} {tr : List Line} {s : State}
    (h : Run N initState tr s) (hdone : s.main = MainPC.done) :
    tr.count Line.creating = 1 ∧
    tr.count Line.waitingMsg = 1 ∧
    tr.count Line.allFinished = 1 ∧
    (∃ r, tr = Line.creating :: r) ∧
    (∃ a, tr = a ++ [Line.allFinished]) ∧
    (∀ p s', Run N initState p s' →
      (Line.creating ∉ p → s'.ids = [] ∧ s'.pcs = []) ∧
      (Line.waitingMsg ∈ p → s'.ids.length = N ∧ s'.pcs.length = N) ∧
      (Line.waitingMsg ∉ p → s'.jn = 0)) := by
  have hInv := inv_run h
  have hne : s.main ≠ MainPC.start := by
    rw [hdone]
    exact fun hc => nomatch hc
  refine ⟨by rw [hInv.cnt_creating, if_neg hne], by rw [hInv.cnt_wait, hdone]; rfl,
    by rw [hInv.cnt_all, hdone]; rfl, hInv.head_creating hne, hInv.last_all hdone, ?_⟩
  intro p s' hrun'
  have hInv' := inv_run hrun'
  refine ⟨?_, ?_, ?_⟩
  · intro hnc
    have hz : p.count Line.creating = 0 := List.count_eq_zero.mpr hnc
    rw [hInv'.cnt_creating] at hz
    by_cases hsm : s'.main = MainPC.start
    · have hp := hInv'.phase
      rw [hsm] at hp
      exact ⟨hp.1, hp.2.1⟩
    · rw [if_neg hsm] at hz
      simp at hz
  · intro hmem
    have hpos : 0 < p.count Line.waitingMsg := List.count_pos_iff.mpr hmem
    rw [hInv'.cnt_wait] at hpos
    cases hsm : s'.main with
    | start => rw [hsm] at hpos; simp [waitFlag] at hpos
    | spawning i => rw [hsm] at hpos; simp [waitFlag] at hpos
    | failed => rw [hsm] at hpos; simp [waitFlag] at hpos
    | joining =>
        have hp := hInv'.phase
        rw [hsm] at hp
        exact ⟨hp.1, hp.2.1⟩
    | done =>
        have hp := hInv'.phase
        rw [hsm] at hp
        exact ⟨hp.1, hp.2.1⟩
  · intro hnmem
    have hz : p.count Line.waitingMsg = 0 := List.count_eq_zero.mpr hnmem
    rw [hInv'.cnt_wait] at hz
    cases hsm : s'.main with
    | joining => rw [hsm] at hz; simp [waitFlag] at hz
    | done => rw [hsm] at hz; simp [waitFlag] at hz
    | start =>
        have hp := hInv'.phase
        rw [hsm] at hp
        exact hp.2.2.1
    | spawning i =>
        have hp := hInv'.phase
        rw [hsm] at hp
        exact hp.2.2.2
    | failed =>
        have hp := hInv'.phase
        rw [hsm] at hp
        exact hp.2.2

/-- C7: with zero workers the launcher spawns nothing, cannot fail, and
every complete run emits exactly the three progress lines and returns 0. -/
theorem C7_zero_workers {tr : List Line} {s : State}
    (h : Run 0 initState tr s) :
    s.main ≠ MainPC.failed ∧
    (s.main = MainPC.done →
      tr = [Line.creating, Line.waitingMsg, Line.allFinished] ∧
      s.ids = [] ∧ s.pcs = [] ∧ return_value s.main = some 0) := by
  rcases run0_cases h with ⟨hs, ht⟩ | ⟨hs, ht⟩ | ⟨hs, ht⟩ | ⟨hs, ht⟩ <;>
    subst hs <;> subst ht
  · exact ⟨by simp, by simp⟩
  · exact ⟨by simp, by simp⟩
  · exact ⟨by simp, by simp⟩
  · exact ⟨by simp, fun _ => ⟨rfl, rfl, rfl, rfl⟩⟩

/-- C8: the populated identifier and handle prefixes always have equal
length on every non-failed state; while spawning they both have exactly
`i` entries (one identifier and one handle per spawned worker), after all
spawns succeed they both have exactly `N = num_threads` entries; each
successful spawn step adds exactly one identifier and one handle; and the
worker-count constant of the source is 3. -/
theorem C8_sizes {N : Nat} {tr : List Line} {s : State}
    (h : Run N initState tr s) :
    (s.main ≠ MainPC.failed → s.ids.length = s.pcs.length) ∧
    (∀ i, s.main = MainPC.spawning i →
      s.ids.length = i ∧ s.pcs.length = i ∧ i ≤ N) ∧
    ((s.main = MainPC.joining ∨ s.main = MainPC.done) →
      s.ids.length = N ∧ s.pcs.length = N) ∧
    (∀ i ids pcs jn out s₁, Step N ⟨MainPC.spawning i, ids, pcs, jn⟩ out s₁ →
      s₁.main = MainPC.spawning (i + 1) →
      s₁.ids.length = ids.length + 1 ∧ s₁.pcs.length = pcs.length + 1) ∧
    num_threads = 3 := by
  have hInv := inv_run h
  refine ⟨?_, ?_, ?_, ?_, rfl⟩
  · intro hne
    cases hsm : s.main with
    | failed => exact absurd hsm hne
    | start =>
        have hp := hInv.phase
        rw [hsm] at hp
        rw [hp.1, hp.2.1]
    | spawning i =>
        have hp := hInv.phase
        rw [hsm] at hp
        omega
    | joining =>
        have hp := hInv.phase
        rw [hsm] at hp
        omega
    | done =>
        have hp := hInv.phase
        rw [hsm] at hp
        omega
  · intro i hsm
    have hp := hInv.phase
    rw [hsm] at hp
    exact ⟨hp.2.1, hp.2.2.1, hp.1⟩
  · intro hm
    rcases hm with hsm | hsm <;> (have hp := hInv.phase; rw [hsm] at hp)
    · exact ⟨hp.1, hp.2.1⟩
    · exact ⟨hp.1, hp.2.1⟩
  · intro i ids pcs jn out s₁ hstep hmain
    cases hstep with
    | spawnOk i ids pcs jn h => simp
    | spawnFail i ids pcs jn e h he => simp at hmain
    | spawnDone i ids pcs jn h => simp at hmain
    | workerRun m ids pcs jn k pc tid hpc hid h =>
        dsimp only at hmain
        simp at hmain
    | workerFin m ids pcs jn k pc tid hpc hid h =>
        dsimp only at hmain
        simp at hmain

/-- C9: every loop in the program terminates: `worker_task` is a total
function whose action list has exactly `2·5 + 1` entries for every
identifier; every step of the whole system strictly decreases a natural
rank, so no infinite execution exists and every trace is finite; and the
spawn index and join counter never exceed the worker count. -/
theorem C9_termination (N : Nat) :
    (∀ n, (thread_func n).1.length = 2 * loop_bound + 1) ∧
    (∀ s out s', Step N s out s' → rank N s' < rank N s) ∧
    (∀ tr s, Run N initState tr s → tr.length ≤ rank N initState) ∧
    (∀ tr s, Run N initState tr s →
      (∀ i, s.main = MainPC.spawning i → i ≤ N) ∧ s.jn ≤ N) := by
  refine ⟨?_, ?_, ?_, ?_⟩
  · intro n
    rw [thread_func_eq n]
    simp [loop_bound, List.length_flatten]
  · intro s out s' hstep
    exact (step_rank hstep).2
  · intro tr s hrun
    have := run_length_bound hrun
    omega
  · intro tr s hrun
    have hInv := inv_run hrun
    constructor
    · intro i hsm
      have hp := hInv.phase
      rw [hsm] at hp
      exact hp.1
    · cases hsm : s.main with
      | start =>
          have hp := hInv.phase
          rw [hsm] at hp
          omega
      | spawning i =>
          have hp := hInv.phase
          rw [hsm] at hp
          omega
      | joining =>
          have hp := hInv.phase
          rw [hsm] at hp
          omega
      | done =>
          have hp := hInv.phase
          rw [hsm] at hp
          omega
      | failed =>
          have hp := hInv.phase
          rw [hsm] at hp
          omega

/-- C10: if thread creation fails at some index, the launcher has emitted
neither the waiting message nor `All threads finished`, has joined no
thread (`join_num` is still 0), has populated one more identifier than
started workers, `main` returns `-1`, and after `Creating threads` the
only launcher-originated output is the single error-stream diagnostic
(any further lines come from the already-started workers). -/
theorem C10_failure_path {N : Nat} {tr : List Line} {s : State}
    (h : Run N initState tr s) (hfail : s.main = MainPC.failed) :
    tr.count Line.waitingMsg = 0 ∧
    tr.count Line.allFinished = 0 ∧
    s.jn = 0 ∧
    s.pcs.length + 1 = s.ids.length ∧
    s.ids.length ≤ N ∧
    tr.countP isErrLine = 1 ∧
    return_value s.main = some (-1) ∧
    (∃ r, tr = Line.creating :: r ∧ ∀ l ∈ r, isLauncherStdout l = false) := by
  have hInv := inv_run h
  have hp := hInv.phase
  rw [hfail] at hp
  have hw : tr.count Line.waitingMsg = 0 := by
    rw [hInv.cnt_wait, hfail]
    rfl
  have hal : tr.count Line.allFinished = 0 := by
    rw [hInv.cnt_all, hfail]
    rfl
  obtain ⟨r, hr⟩ := hInv.head_creating (by rw [hfail]; exact fun hc => nomatch hc)
  refine ⟨hw, hal, hp.2.2, hp.2.1, hp.1, by rw [hInv.cnt_err, hfail]; rfl,
    by rw [hfail]; rfl, r, hr, ?_⟩
  intro l hl
  have hcr : Line.creating ∉ r := by
    have hc := hInv.cnt_creating
    rw [hfail] at hc
    rw [hr, List.count_cons] at hc
    simp at hc
    exact List.count_eq_zero.mp (by omega)
  have hwr : Line.waitingMsg ∉ r := by
    rw [hr, List.count_cons] at hw
    simp at hw
    exact List.count_eq_zero.mp (by omega)
  have har : Line.allFinished ∉ r := by
    rw [hr, List.count_cons] at hal
    simp at hal
    exact List.count_eq_zero.mp (by omega)
  cases l with
  | creating => exact absurd hl hcr
  | waitingMsg => exact absurd hl hwr
  | allFinished => exact absurd hl har
  | running n => rfl
  | finished n => rfl
  | errDiag e => rfl

/-! ### Witnesses: the claim theorems applied at concrete inputs -/

theorem C1_witness :
    (thread_func 2).2 = none ∧
    (thread_func 2).1.count (Act.print (Line.running 2)) = 5 :=
  ⟨(C1_worker_task 2).2.2.2.1, (C1_worker_task 2).2.1⟩

theorem C2_witness :
    trace3.countP isRunningLine = 15 ∧ trace3.count (Line.running 2) = 5 :=
  ⟨(C2_launch3 run3_done rfl).2.1,
    (C2_launch3 run3_done rfl).2.2.1 2 (by decide) (by decide)⟩

theorem C3_witness :
    [Line.creating, Line.errDiag 11].countP isErrLine = 1 ∧
    return_value MainPC.failed = some (-1) :=
  ⟨(C3_spawn_failure run_failed rfl).2.1, (C3_spawn_failure run_failed rfl).1⟩

theorem C4_witness :
    ∃ a, trace3 = a ++ [Line.allFinished] ∧
      Line.allFinished ∉ a ∧
      (∀ k, k < 3 → Line.finished (k + 1) ∈ a) ∧
      (∀ pc ∈ doneState3.pcs, pc = loop_bound + 1) ∧
      doneState3.jn = 3 :=
  C4_all_finished_last run3_done rfl

theorem C5_witness :
    doneState3.ids = List.range' 1 3 ∧ doneState3.ids.Nodup :=
  ⟨(C5_identifiers run3_done).2.2.2.1 (Or.inr rfl),
    (C5_identifiers run3_done).2.1⟩

theorem C6_witness :
    trace3.count Line.creating = 1 ∧
    trace3.count Line.waitingMsg = 1 ∧
    trace3.count Line.allFinished = 1 :=
  ⟨(C6_progress_lines run3_done rfl).1, (C6_progress_lines run3_done rfl).2.1,
    (C6_progress_lines run3_done rfl).2.2.1⟩

theorem C7_witness :
    MainPC.done ≠ MainPC.failed ∧ return_value MainPC.done = some 0 :=
  ⟨(C7_zero_workers run0_done).1, ((C7_zero_workers run0_done).2 rfl).2.2.2⟩

theorem C8_witness :
    doneState3.ids.length = 3 ∧ doneState3.pcs.length = 3 :=
  (C8_sizes run3_done).2.2.1 (Or.inr rfl)

theorem C9_witness :
    rank 3 ⟨MainPC.spawning 0, [], [], 0⟩ < rank 3 initState :=
  (C9_termination 3).2.1 initState [Line.creating]
    ⟨MainPC.spawning 0, [], [], 0⟩ (Step.creating [] [] 0)

theorem C10_witness :
    [Line.creating, Line.errDiag 11].count Line.waitingMsg = 0 ∧
    [Line.creating, Line.errDiag 11].countP isErrLine = 1 :=
  ⟨(C10_failure_path run_failed rfl).1,
    (C10_failure_path run_failed rfl).2.2.2.2.2.1⟩

end Threading
